import Mathlib

/-
Shallow embedding of the quiz application in src/imtihan2.py:
question-bank loading and validation (load_valid_questions), session state
(init_session and the Streamlit session transitions in main), answer
submission (display_question) and per-tag aggregation (analyze_tag).

Question rows are Python dicts (column name → cell string); they are
modelled as association lists with first-match lookup.  Times are modelled
as rationals.
-/

namespace Imtihan

/-- Python str.strip(): drop leading and trailing whitespace.  (Defined on
the character list so that it reduces in the kernel.) -/
def strip (s : String) : String :=
  String.mk (((s.data.dropWhile Char.isWhitespace).reverse.dropWhile
    Char.isWhitespace).reverse)

/-- Python str.upper(): uppercase every character. -/
def upper (s : String) : String :=
  String.mk (s.data.map Char.toUpper)

/-- A question row: the dict produced by pandas row.to_dict, keyed by the
(trimmed) column names. -/
abbrev Row := List (String × String)

/-- Dict lookup: row[k] / row.get(k).  Rows built by the loader have at most
one entry per key, so first-match lookup coincides with dict lookup. -/
def rowGet (r : Row) (k : String) : Option String :=
  (r.find? (fun p => p.1 == k)).map (fun p => p.2)

/-- row.get(k, d) with a default. -/
def rowGetD (r : Row) (k d : String) : String :=
  (rowGet r k).getD d

/-- The entry of st.session_state.user_answers created by display_question. -/
structure AnswerRecord where
  selected : String
  correct : String
  time_taken : ℚ
deriving DecidableEq

/-- st.session_state, restricted to the keys init_session manages. -/
structure SessionState where
  authenticated : Bool
  test_started : Bool
  current_question : Nat
  user_answers : List (String × AnswerRecord)
  username : Option String
  start_time : Option ℚ
  questions : List Row
deriving DecidableEq

/-- init_session: the default value of every managed session key. -/
def init_session : SessionState :=
  { authenticated := false
    test_started := false
    current_question := 0
    user_answers := []
    username := none
    start_time := none
    questions := [] }

/-- required_columns in load_valid_questions, in source order. -/
def requiredColumns : List String :=
  ["Question ID", "Question Text", "Option A", "Option B",
   "Option C", "Option D", "Correct Answer", "Subject", "Topic",
   "Sub- Topic", "Difficulty Level", "Question Type", "Cognitive Level"]

/-- The raw table read from the CSV: column headers and the cell strings of
each row.  A pandas DataFrame keeps every row aligned with the header, which
is the wf field. -/
structure Frame where
  cols : List String
  cells : List (List String)
  wf : ∀ r ∈ cells, r.length = cols.length

/-- The row dicts obtained by iterating the frame after the header trim
(df.columns = df.columns.str.strip(); row.to_dict()). -/
def frameRows (f : Frame) : List Row :=
  f.cells.map (fun cs => List.zip (f.cols.map strip) cs)

/-- The per-row validation of load_valid_questions: all four options
non-empty after strip, the option list has length 4, and the trimmed
uppercased Correct Answer is one of A, B, C, D. -/
def validRow (r : Row) : Bool :=
  let options := [strip (rowGetD r "Option A" ""), strip (rowGetD r "Option B" ""),
                  strip (rowGetD r "Option C" ""), strip (rowGetD r "Option D" "")]
  options.all (fun o => o != "") && (options.length == 4) &&
    (["A", "B", "C", "D"].contains (upper (strip (rowGetD r "Correct Answer" ""))))

/-- load_valid_questions: trim the headers, check the required columns
(error lists the missing ones), then keep exactly the rows passing
validRow; the second component is the skipped-row count surfaced as the
warning (len(df) - len(valid_questions)). -/
def load_valid_questions (f : Frame) : Except (List String) (List Row × Nat) :=
  let cols := f.cols.map strip
  let missing_cols := requiredColumns.filter (fun c => ! cols.contains c)
  if missing_cols.isEmpty then
    let rows := frameRows f
    let valid := rows.filter validRow
    .ok (valid, rows.length - valid.length)
  else
    .error missing_cols

/-- What the caller of load_valid_questions receives in
st.session_state.questions: the records on success, [] on a schema error
(the source prints the error and returns []). -/
def loadedBank (f : Frame) : List Row :=
  match load_valid_questions f with
  | .error _ => []
  | .ok (records, _) => records

/-- The running totals of analyze_tag before the derived fields are added. -/
structure Stats where
  total : Nat
  correct : Nat
  time : ℚ
deriving DecidableEq

/-- A finished analyze_tag entry, with the derived accuracy and avg_time. -/
structure TagAggregate where
  total : Nat
  correct : Nat
  time : ℚ
  accuracy : ℚ
  avg_time : ℚ
deriving DecidableEq

/-- q.get(tag_name, the default key used for a missing tag). -/
def tagValue (q : Row) (tag : String) : String :=
  (rowGet q tag).getD "N/A"

/-- q[the Question ID column]; present in every loaded record (the schema
check guarantees the key, and a missing key would raise in the source). -/
def qidOf (q : Row) : String :=
  rowGetD q "Question ID" ""

/-- q[the Correct Answer column].strip().upper(). -/
def correctLetter (q : Row) : String :=
  upper (strip (rowGetD q "Correct Answer" ""))

/-- user_answers.get(k): dict lookup in the answer map. -/
def dictGetAns (m : List (String × AnswerRecord)) (k : String) : Option AnswerRecord :=
  (m.find? (fun p => p.1 == k)).map (fun p => p.2)

/-- user_answers[k] = v: dict update, keeping insertion order and appending
a new key at the end, as a Python dict does. -/
def dictSet (m : List (String × AnswerRecord)) (k : String) (v : AnswerRecord) :
    List (String × AnswerRecord) :=
  match m with
  | [] => [(k, v)]
  | (k2, v2) :: rest => if k2 == k then (k2, v) :: rest else (k2, v2) :: dictSet rest k v

/-- ans.get(the selected key) == q[Correct Answer].strip().upper() for the
answer looked up under the question's id; False when unanswered (None never
equals a string). -/
def answeredCorrect (answers : List (String × AnswerRecord)) (q : Row) : Bool :=
  match dictGetAns answers (qidOf q) with
  | some a => a.selected == correctLetter q
  | none => false

/-- ans.get(the time-taken key, 0): 0 for an unanswered question. -/
def timeContribution (answers : List (String × AnswerRecord)) (q : Row) : ℚ :=
  match dictGetAns answers (qidOf q) with
  | some a => a.time_taken
  | none => 0

/-- The dict update analysis[tag_value] performed for one question: create
the zero entry if the key is absent, then apply the increments. -/
def updStats (m : List (String × Stats)) (k : String) (f : Stats → Stats) :
    List (String × Stats) :=
  match m with
  | [] => [(k, f ⟨0, 0, 0⟩)]
  | (k2, s) :: rest => if k2 == k then (k2, f s) :: rest else (k2, s) :: updStats rest k f

/-- One iteration of the accumulation loop of analyze_tag. -/
def stepStats (answers : List (String × AnswerRecord)) (tag : String)
    (m : List (String × Stats)) (q : Row) : List (String × Stats) :=
  updStats m (tagValue q tag) (fun s =>
    { total := s.total + 1
      correct := s.correct + (if answeredCorrect answers q then 1 else 0)
      time := s.time + timeContribution answers q })

/-- The accumulation phase of analyze_tag over all questions. -/
def analyzeAcc (questions : List Row) (answers : List (String × AnswerRecord))
    (tag : String) : List (String × Stats) :=
  questions.foldl (stepStats answers tag) []

/-- The derivation phase of analyze_tag: add accuracy and avg_time with the
zero-total guard. -/
def deriveStats (s : Stats) : TagAggregate :=
  { total := s.total
    correct := s.correct
    time := s.time
    accuracy := if s.total > 0 then ((s.correct : ℚ) / (s.total : ℚ)) * 100 else 0
    avg_time := if s.total > 0 then s.time / (s.total : ℚ) else 0 }

/-- analyze_tag(tag_name): accumulate per tag value over every question in
the bank, then derive accuracy and avg_time per entry. -/
def analyze_tag (questions : List Row) (answers : List (String × AnswerRecord))
    (tag : String) : List (String × TagAggregate) :=
  (analyzeAcc questions answers tag).map (fun p => (p.1, deriveStats p.2))

/-- Python options.index(x): index of the first element equal to x. -/
def listIndex (x : String) : List String → Option Nat
  | [] => none
  | o :: rest => if o == x then some 0 else (listIndex x rest).map (fun n => n + 1)

/-- The four stripped option strings rendered for a question. -/
def trimmedOptions (q : Row) : List String :=
  [strip (rowGetD q "Option A" ""), strip (rowGetD q "Option B" ""),
   strip (rowGetD q "Option C" ""), strip (rowGetD q "Option D" "")]

/-- The keys display_question subscripts on the question dict; all are
required columns, so they are present in every loaded record. -/
def displayKeys : List String :=
  ["Question Text", "Option A", "Option B", "Option C", "Option D",
   "Correct Answer", "Question ID"]

/-- display_question on a Next click, as a state transformer.  answer is the
raw selected option string, now the current clock reading.  A missing
required key takes the KeyError handler: index + 1, nothing recorded.  A
selection matching no stripped option is the ValueError branch: error
message, state unchanged.  Otherwise the answer is recorded under the
question id (selected letter chr(65+i), correct letter stripped and
uppercased, time_taken = now - start_time) and the index advances.
start_time is set whenever the test has started; a None start_time would
raise in the source, hence the getD. -/
def display_question (q : Row) (answer : String) (now : ℚ) (s : SessionState) :
    SessionState :=
  match rowGet q "Question Text", rowGet q "Option A", rowGet q "Option B",
        rowGet q "Option C", rowGet q "Option D" with
  | some _, some a, some b, some c, some d =>
    match listIndex (strip answer) [strip a, strip b, strip c, strip d] with
    | none => s
    | some i =>
      match rowGet q "Correct Answer", rowGet q "Question ID" with
      | some ca, some qid =>
        { s with
          user_answers := dictSet s.user_answers qid
            { selected := (Char.ofNat (65 + i)).toString
              correct := upper (strip ca)
              time_taken := now - s.start_time.getD 0 }
          current_question := s.current_question + 1
          start_time := some now }
      | _, _ => { s with current_question := s.current_question + 1 }
  | _, _, _, _, _ => { s with current_question := s.current_question + 1 }

/-- The Retake Test handler: st.session_state.clear() followed by
init_session() restores every managed key to its default. -/
def retakeTest (_s : SessionState) : SessionState :=
  init_session

/-- The user-driven transitions of main(): successful login (loads the
bank), test start, answer submission via display_question, and retake from
the results page. -/
inductive Step : SessionState → SessionState → Prop
  | auth (s : SessionState) (u : String) (f : Frame)
      (h : s.authenticated = false) :
      Step s { s with authenticated := true, username := some u,
                      questions := loadedBank f }
  | startTest (s : SessionState) (now : ℚ)
      (h1 : s.authenticated = true) (h2 : s.questions ≠ [])
      (h3 : s.test_started = false) :
      Step s { s with test_started := true, start_time := some now }
  | answer (s : SessionState) (ans : String) (now : ℚ)
      (h1 : s.authenticated = true) (h2 : s.test_started = true)
      (h3 : s.current_question < s.questions.length) :
      Step s (display_question (s.questions.get ⟨s.current_question, h3⟩) ans now s)
  | retake (s : SessionState)
      (h1 : s.authenticated = true) (h2 : s.test_started = true)
      (h3 : s.questions.length ≤ s.current_question) (h4 : s.questions ≠ []) :
      Step s (retakeTest s)

/-- Session states reachable from the fresh session. -/
inductive Reachable : SessionState → Prop
  | init : Reachable init_session
  | step {s t : SessionState} : Reachable s → Step s t → Reachable t

/-- The analysis entry at key v, zero when the key is absent. -/
def getStats (m : List (String × Stats)) (v : String) : Stats :=
  ((m.find? (fun p => p.1 == v)).map (fun p => p.2)).getD ⟨0, 0, 0⟩

/-- The sum of the per-entry totals of the analysis dict. -/
def totalSum (m : List (String × Stats)) : Nat :=
  (m.map (fun p => p.2.total)).sum

/-- A concrete well-formed input table with one valid question row. -/
def exampleFrame : Frame :=
  { cols := ["Question ID", "Question Text", "Option A", "Option B",
             "Option C", "Option D", "Correct Answer", "Subject", "Topic",
             "Sub- Topic", "Difficulty Level", "Question Type", "Cognitive Level"]
    cells := [["Q1", "Capital of France?", "Paris", "London", "Rome", "Berlin",
               "b ", "Geo", "Europe", "Capitals", "Easy", "MCQ", "Remember"]]
    wf := by decide }

/-- The single record the loader produces from exampleFrame. -/
def exRow1 : Row :=
  [("Question ID", "Q1"), ("Question Text", "Capital of France?"),
   ("Option A", "Paris"), ("Option B", "London"), ("Option C", "Rome"),
   ("Option D", "Berlin"), ("Correct Answer", "b "), ("Subject", "Geo"),
   ("Topic", "Europe"), ("Sub- Topic", "Capitals"),
   ("Difficulty Level", "Easy"), ("Question Type", "MCQ"),
   ("Cognitive Level", "Remember")]

/-- A concrete answer map: exRow1 answered correctly in 3 seconds. -/
def exAnswers : List (String × AnswerRecord) :=
  [("Q1", { selected := "B", correct := "B", time_taken := 3 })]

/-- The session right after a successful login with exampleFrame loaded. -/
def exState1 : SessionState :=
  { init_session with authenticated := true, username := some "user1",
                      questions := loadedBank exampleFrame }

/-- The session right after the start click at time 0. -/
def exState2 : SessionState :=
  { exState1 with test_started := true, start_time := some 0 }

/-- The session after answering exRow1 with the raw option string at time 3. -/
def exState3 : SessionState := display_question exRow1 "London" 3 exState2

/-- A started session whose clock was last recorded at time 5; submitting at
an earlier clock reading exhibits the unclamped negative elapsed time. -/
def skewState : SessionState :=
  { exState2 with start_time := some 5 }

/-- A completed session holding a non-empty bank, for exercising retake. -/
def doneState : SessionState :=
  { exState3 with current_question := 1 }

/-- A well-formed table whose second row has an empty Option C cell. -/
def invalidRowFrame : Frame :=
  { cols := exampleFrame.cols
    cells := [["Q1", "Capital of France?", "Paris", "London", "Rome", "Berlin",
               "b ", "Geo", "Europe", "Capitals", "Easy", "MCQ", "Remember"],
              ["Q2", "Largest ocean?", "Pacific", "Atlantic", "", "Arctic",
               "A", "Geo", "Oceans", "Oceans", "Easy", "MCQ", "Remember"]]
    wf := by decide }

/-- A table missing the Correct Answer and Subject columns. -/
def missingColFrame : Frame :=
  { cols := ["Question ID ", "Question Text", "Option A", "Option B",
             "Option C", "Option D", "Topic",
             "Sub- Topic", "Difficulty Level", "Question Type", "Cognitive Level"]
    cells := [["Q1", "Capital of France?", "Paris", "London", "Rome", "Berlin",
               "Europe", "Capitals", "Easy", "MCQ", "Remember"]]
    wf := by decide }

lemma getStats_nil (v : String) : getStats [] v = ⟨0, 0, 0⟩ := rfl

lemma getStats_cons (k v : String) (s : Stats) (m : List (String × Stats)) :
    getStats ((k, s) :: m) v = if k == v then s else getStats m v := by
  cases h : k == v <;> simp [getStats, List.find?, h]

lemma getStats_updStats (m : List (String × Stats)) (k v : String) (f : Stats → Stats) :
    getStats (updStats m k f) v = if k == v then f (getStats m k) else getStats m v := by
  induction m with
  | nil => simp [updStats, getStats_cons, getStats_nil]
  | cons hd tl ih =>
    obtain ⟨k2, s⟩ := hd
    by_cases h1 : k2 = k
    · subst h1
      by_cases h2 : k2 = v <;> simp [updStats, getStats_cons, h2]
    · have h1b : (k2 == k) = false := beq_eq_false_iff_ne.mpr h1
      by_cases h2 : k2 = v
      · subst h2
        have hkv : (k == k2) = false := beq_eq_false_iff_ne.mpr (Ne.symm h1)
        simp [updStats, h1b, getStats_cons, hkv]
      · have h2b : (k2 == v) = false := beq_eq_false_iff_ne.mpr h2
        simp [updStats, h1b, getStats_cons, h2b, ih]

lemma totalSum_updStats (m : List (String × Stats)) (k : String) (f : Stats → Stats)
    (hf : ∀ s, (f s).total = s.total + 1) :
    totalSum (updStats m k f) = totalSum m + 1 := by
  induction m with
  | nil => simp [updStats, totalSum, hf]
  | cons hd tl ih =>
    obtain ⟨k2, s⟩ := hd
    by_cases h : k2 = k
    · subst h; simp [updStats, totalSum, hf]; omega
    · have hb : (k2 == k) = false := beq_eq_false_iff_ne.mpr h
      simp [updStats, hb, totalSum] at ih ⊢
      omega

lemma totalSum_foldl (answers : List (String × AnswerRecord)) (tag : String)
    (qs : List Row) :
    ∀ m : List (String × Stats),
      totalSum (qs.foldl (stepStats answers tag) m) = totalSum m + qs.length := by
  induction qs with
  | nil => intro m; simp
  | cons q qs ih =>
    intro m
    have h1 : totalSum (stepStats answers tag m q) = totalSum m + 1 :=
      totalSum_updStats _ _ _ (fun s => rfl)
    simp only [List.foldl_cons, List.length_cons, ih, h1]
    omega

/-- What the accumulation loop leaves at key v: the entry of the initial
dict plus one count per bank question whose tag value is v, one correctness
count per such question answered with the question's correct letter, and
the summed recorded times of such questions. -/
lemma getStats_foldl (answers : List (String × AnswerRecord)) (tag : String)
    (qs : List Row) :
    ∀ (m : List (String × Stats)) (v : String),
      getStats (qs.foldl (stepStats answers tag) m) v =
        { total := (getStats m v).total + qs.countP (fun q => tagValue q tag == v)
          correct := (getStats m v).correct +
            qs.countP (fun q => (tagValue q tag == v) && answeredCorrect answers q)
          time := (getStats m v).time +
            ((qs.filter (fun q => tagValue q tag == v)).map
              (timeContribution answers)).sum } := by
  induction qs with
  | nil => intro m v; simp
  | cons q qs ih =>
    intro m v
    rw [List.foldl_cons, ih]
    have hstep : getStats (stepStats answers tag m q) v =
        if tagValue q tag == v then
          { total := (getStats m (tagValue q tag)).total + 1
            correct := (getStats m (tagValue q tag)).correct +
              (if answeredCorrect answers q then 1 else 0)
            time := (getStats m (tagValue q tag)).time + timeContribution answers q }
        else getStats m v :=
      getStats_updStats m (tagValue q tag) v _
    by_cases hv : tagValue q tag = v
    · have hvb : (tagValue q tag == v) = true := beq_iff_eq.mpr hv
      rw [hstep, if_pos hvb]
      subst hv
      by_cases ha : answeredCorrect answers q
      · simp [List.countP_cons, List.filter_cons, hvb, ha]
        refine ⟨by omega, by omega, by ring⟩
      · have hab : answeredCorrect answers q = false := by simpa using ha
        simp [List.countP_cons, List.filter_cons, hvb, hab]
        refine ⟨by omega, by ring⟩
    · have hvb : (tagValue q tag == v) = false := beq_eq_false_iff_ne.mpr hv
      rw [hstep, if_neg (by simp [hvb])]
      simp [List.countP_cons, List.filter_cons, hvb]

/-- The characterization of analyzeAcc at any key. -/
lemma getStats_analyzeAcc (qs : List Row) (answers : List (String × AnswerRecord))
    (tag : String) (v : String) :
    getStats (analyzeAcc qs answers tag) v =
      { total := qs.countP (fun q => tagValue q tag == v)
        correct := qs.countP (fun q => (tagValue q tag == v) && answeredCorrect answers q)
        time := ((qs.filter (fun q => tagValue q tag == v)).map
          (timeContribution answers)).sum } := by
  rw [analyzeAcc, getStats_foldl]
  simp [getStats_nil]

lemma keys_updStats (m : List (String × Stats)) (k : String) (f : Stats → Stats) :
    (updStats m k f).map (fun p => p.1) =
      if (m.map (fun p => p.1)).contains k then m.map (fun p => p.1)
      else m.map (fun p => p.1) ++ [k] := by
  induction m with
  | nil => simp [updStats]
  | cons hd tl ih =>
    obtain ⟨k2, s⟩ := hd
    by_cases h : k2 = k
    · subst h
      have hb : (k2 == k2) = true := beq_iff_eq.mpr rfl
      rw [List.map_cons]
      rw [show updStats ((k2, s) :: tl) k2 f = (k2, f s) :: tl from by
        simp [updStats]]
      rw [if_pos (by simp [List.contains_cons])]
      simp
    · have hb : (k2 == k) = false := beq_eq_false_iff_ne.mpr h
      have hkb : (k == k2) = false := beq_eq_false_iff_ne.mpr (Ne.symm h)
      rw [show updStats ((k2, s) :: tl) k f = (k2, s) :: updStats tl k f from by
        simp [updStats, hb]]
      rw [List.map_cons, List.map_cons, ih]
      rw [show ((k2 :: tl.map (fun p => p.1)).contains k) =
          ((tl.map (fun p => p.1)).contains k) from by
        simp [List.contains_cons, hkb]]
      by_cases hc : (tl.map (fun p => p.1)).contains k = true
      · rw [if_pos hc, if_pos hc]
      · rw [if_neg hc, if_neg hc, List.cons_append]

lemma nodup_keys_updStats (m : List (String × Stats)) (k : String) (f : Stats → Stats)
    (h : (m.map (fun p => p.1)).Nodup) :
    ((updStats m k f).map (fun p => p.1)).Nodup := by
  rw [keys_updStats]
  by_cases hc : (m.map (fun p => p.1)).contains k = true
  · rwa [if_pos hc]
  · rw [if_neg hc]
    have hk : k ∉ m.map (fun p => p.1) := by
      intro hmem
      exact hc (List.elem_eq_true_of_mem hmem)
    refine List.Nodup.append h (List.nodup_singleton k) ?_
    intro a ha hmem
    rw [List.mem_singleton] at hmem
    exact hk (hmem ▸ ha)

lemma nodup_keys_analyzeAcc (qs : List Row) (answers : List (String × AnswerRecord))
    (tag : String) :
    ((analyzeAcc qs answers tag).map (fun p => p.1)).Nodup := by
  rw [analyzeAcc]
  have h : ∀ m : List (String × Stats), (m.map (fun p => p.1)).Nodup →
      ((qs.foldl (stepStats answers tag) m).map (fun p => p.1)).Nodup := by
    induction qs with
    | nil => intro m hm; simpa using hm
    | cons q qs ih =>
      intro m hm
      rw [List.foldl_cons]
      exact ih _ (nodup_keys_updStats _ _ _ hm)
  exact h [] (by simp)

/-- In a dict with distinct keys, a member entry is what getStats finds. -/
lemma getStats_of_mem (m : List (String × Stats)) (v : String) (s : Stats)
    (hnd : (m.map (fun p => p.1)).Nodup) (hmem : (v, s) ∈ m) :
    getStats m v = s := by
  revert hnd hmem
  induction m with
  | nil => intro _ hmem; cases hmem
  | cons hd tl ih =>
    intro hnd hmem
    obtain ⟨k2, s2⟩ := hd
    rw [List.map_cons, List.nodup_cons] at hnd
    rcases List.mem_cons.mp hmem with heq | htl
    · obtain ⟨h1, h2⟩ := Prod.mk.inj (heq.symm)
      subst h1
      subst h2
      simp [getStats_cons]
    · have hm : v ∈ tl.map (fun p => p.1) := List.mem_map.mpr ⟨(v, s), htl, rfl⟩
      have hk2 : k2 ≠ v := fun h => hnd.1 (h ▸ hm)
      rw [getStats_cons, if_neg (by simp [hk2])]
      exact ih hnd.2 htl

lemma map_total_analyze_tag (qs : List Row) (answers : List (String × AnswerRecord))
    (tag : String) :
    (analyze_tag qs answers tag).map (fun p => p.2.total) =
      (analyzeAcc qs answers tag).map (fun p => p.2.total) := by
  simp [analyze_tag, List.map_map, Function.comp, deriveStats]

lemma sum_total_analyze_tag (qs : List Row) (answers : List (String × AnswerRecord))
    (tag : String) :
    ((analyze_tag qs answers tag).map (fun p => p.2.total)).sum = qs.length := by
  rw [map_total_analyze_tag]
  have h := totalSum_foldl answers tag qs []
  simpa [totalSum, analyzeAcc] using h

lemma mem_analyze_tag (qs : List Row) (answers : List (String × AnswerRecord))
    (tag v : String) (agg : TagAggregate)
    (h : (v, agg) ∈ analyze_tag qs answers tag) :
    agg = deriveStats (getStats (analyzeAcc qs answers tag) v) := by
  obtain ⟨p, hp, heq⟩ := List.mem_map.mp h
  obtain ⟨h1, h2⟩ := Prod.mk.inj heq
  have hmem : (p.1, p.2) ∈ analyzeAcc qs answers tag := by simpa using hp
  rw [← h1, ← h2,
    getStats_of_mem _ _ _ (nodup_keys_analyzeAcc qs answers tag) hmem]

/-- C1: analyze_tag visits every question of the bank, answered or not: the
per-entry totals sum to the bank size; the entry at tag value v counts
exactly the questions with that value, counts as correct exactly those
whose recorded selected letter equals the question's stripped uppercased
correct letter, and sums their recorded times; an unanswered question
contributes no correctness and zero time, and an answered one contributes
correctness exactly when its selected letter equals the question's correct
letter. -/
theorem analyze_tag_totals_and_contributions (qs : List Row)
    (answers : List (String × AnswerRecord)) (tag : String) :
    ((analyze_tag qs answers tag).map (fun p => p.2.total)).sum = qs.length
    ∧ (∀ v agg, (v, agg) ∈ analyze_tag qs answers tag →
        agg.total = qs.countP (fun q => tagValue q tag == v)
        ∧ agg.correct =
            qs.countP (fun q => (tagValue q tag == v) && answeredCorrect answers q)
        ∧ agg.time = ((qs.filter (fun q => tagValue q tag == v)).map
            (timeContribution answers)).sum)
    ∧ (∀ q : Row, dictGetAns answers (qidOf q) = none →
        answeredCorrect answers q = false ∧ timeContribution answers q = 0)
    ∧ (∀ (q : Row) (rec : AnswerRecord), dictGetAns answers (qidOf q) = some rec →
        answeredCorrect answers q = (rec.selected == correctLetter q)) := by
  refine ⟨sum_total_analyze_tag qs answers tag, ?_, ?_, ?_⟩
  · intro v agg hmem
    rw [mem_analyze_tag qs answers tag v agg hmem, getStats_analyzeAcc]
    exact ⟨rfl, rfl, rfl⟩
  · intro q h
    constructor
    · simp [answeredCorrect, h]
    · simp [timeContribution, h]
  · intro q rec h
    simp [answeredCorrect, h]

/-- The aggregate analyze_tag produces for the Geo subject on the
one-question example bank with its question answered correctly. -/
def exAggGeo : TagAggregate := deriveStats ⟨1, 1, 0 + 3⟩

theorem analyze_tag_totals_and_contributions_witness :
    ("Geo", exAggGeo) ∈ analyze_tag [exRow1] exAnswers "Subject"
    ∧ exAggGeo.total = [exRow1].countP (fun q => tagValue q "Subject" == "Geo")
    ∧ exAggGeo.correct = [exRow1].countP
        (fun q => (tagValue q "Subject" == "Geo") && answeredCorrect exAnswers q)
    ∧ exAggGeo.time = (([exRow1].filter (fun q => tagValue q "Subject" == "Geo")).map
        (timeContribution exAnswers)).sum := by
  have hmem : ("Geo", exAggGeo) ∈ analyze_tag [exRow1] exAnswers "Subject" := by
    show ("Geo", exAggGeo) ∈ [("Geo", exAggGeo)]
    exact List.mem_singleton.mpr rfl
  have h := (analyze_tag_totals_and_contributions [exRow1] exAnswers "Subject").2.1
    "Geo" exAggGeo hmem
  exact ⟨hmem, h⟩

lemma dictGetAns_some (m : List (String × AnswerRecord)) (k : String) (a : AnswerRecord)
    (h : dictGetAns m k = some a) : ∃ p ∈ m, p.1 = k ∧ p.2 = a := by
  unfold dictGetAns at h
  cases hf : m.find? (fun p => p.1 == k) with
  | none => rw [hf] at h; simp at h
  | some p =>
    rw [hf] at h
    simp at h
    have hpk : (p.1 == k) = true := by
      have h2 := List.find?_some hf
      simpa using h2
    exact ⟨p, List.mem_of_find?_eq_some hf, beq_iff_eq.mp hpk, h⟩

lemma timeContribution_nonneg (answers : List (String × AnswerRecord))
    (htime : ∀ p ∈ answers, 0 ≤ p.2.time_taken) (q : Row) :
    0 ≤ timeContribution answers q := by
  unfold timeContribution
  cases hq : dictGetAns answers (qidOf q) with
  | none => exact le_refl 0
  | some a =>
    obtain ⟨p, hp, _, hpa⟩ := dictGetAns_some answers (qidOf q) a hq
    exact hpa ▸ htime p hp

lemma deriveStats_bounds (s : Stats) (hc : s.correct ≤ s.total) (ht : 0 ≤ s.time) :
    0 ≤ (deriveStats s).accuracy ∧ (deriveStats s).accuracy ≤ 100
    ∧ 0 ≤ (deriveStats s).avg_time
    ∧ ((deriveStats s).total = 0 →
        (deriveStats s).accuracy = 0 ∧ (deriveStats s).avg_time = 0) := by
  by_cases h : s.total > 0
  · have hT0 : (0 : ℚ) < (s.total : ℚ) := by exact_mod_cast h
    have hc0 : (0 : ℚ) ≤ (s.correct : ℚ) := by positivity
    have hdiv1 : (s.correct : ℚ) / (s.total : ℚ) ≤ 1 :=
      div_le_one_of_le₀ (by exact_mod_cast hc) (le_of_lt hT0)
    refine ⟨?_, ?_, ?_, ?_⟩
    · simp only [deriveStats, if_pos h]
      positivity
    · simp only [deriveStats, if_pos h]
      calc (s.correct : ℚ) / (s.total : ℚ) * 100 ≤ 1 * 100 :=
            mul_le_mul_of_nonneg_right hdiv1 (by norm_num)
        _ = 100 := by norm_num
    · simp only [deriveStats, if_pos h]
      exact div_nonneg ht (le_of_lt hT0)
    · intro h0
      simp only [deriveStats] at h0
      omega
  · refine ⟨?_, ?_, ?_, fun _ => ⟨?_, ?_⟩⟩ <;> simp only [deriveStats, if_neg h] <;> norm_num

/-- C2: every aggregate produced by analyze_tag has accuracy within
[0, 100]; its average time is non-negative whenever every recorded time in
the answer map is non-negative (the AnswerRecord invariant); and a
zero-total entry derives exactly 0 for both, the division being guarded. -/
theorem analyze_tag_derived_bounds (qs : List Row)
    (answers : List (String × AnswerRecord)) (tag : String)
    (htime : ∀ p ∈ answers, 0 ≤ p.2.time_taken) :
    ∀ v agg, (v, agg) ∈ analyze_tag qs answers tag →
      0 ≤ agg.accuracy ∧ agg.accuracy ≤ 100 ∧ 0 ≤ agg.avg_time
      ∧ (agg.total = 0 → agg.accuracy = 0 ∧ agg.avg_time = 0) := by
  intro v agg hmem
  rw [mem_analyze_tag qs answers tag v agg hmem]
  apply deriveStats_bounds
  · rw [getStats_analyzeAcc]
    exact List.countP_mono_left (fun a _ hab => ((Bool.and_eq_true _ _).mp hab).1)
  · rw [getStats_analyzeAcc]
    apply List.sum_nonneg
    intro x hx
    obtain ⟨q, hq, rfl⟩ := List.mem_map.mp hx
    exact timeContribution_nonneg answers htime q

theorem analyze_tag_derived_bounds_witness :
    0 ≤ exAggGeo.accuracy ∧ exAggGeo.accuracy ≤ 100 ∧ 0 ≤ exAggGeo.avg_time
    ∧ (exAggGeo.total = 0 → exAggGeo.accuracy = 0 ∧ exAggGeo.avg_time = 0) := by
  refine analyze_tag_derived_bounds [exRow1] exAnswers "Subject" ?_ "Geo" exAggGeo ?_
  · intro p hp
    rw [show exAnswers = [("Q1", { selected := "B", correct := "B", time_taken := 3 })]
      from rfl, List.mem_singleton] at hp
    rw [hp]
    norm_num
  · show ("Geo", exAggGeo) ∈ [("Geo", exAggGeo)]
    exact List.mem_singleton.mpr rfl

lemma keys_foldl_mem (answers : List (String × AnswerRecord)) (tag : String)
    (qs : List Row) :
    ∀ (m : List (String × Stats)) (k : String),
      k ∈ (qs.foldl (stepStats answers tag) m).map (fun p => p.1) →
      k ∈ m.map (fun p => p.1) ∨ k ∈ qs.map (fun q => tagValue q tag) := by
  induction qs with
  | nil => intro m k h; exact Or.inl (by simpa using h)
  | cons q qs ih =>
    intro m k h
    rw [List.foldl_cons] at h
    rcases ih (stepStats answers tag m q) k h with hm | hqs
    · rw [stepStats, keys_updStats] at hm
      by_cases hc : (m.map (fun p => p.1)).contains (tagValue q tag) = true
      · rw [if_pos hc] at hm
        exact Or.inl hm
      · rw [if_neg hc] at hm
        rcases List.mem_append.mp hm with h1 | h1
        · exact Or.inl h1
        · rw [List.mem_singleton] at h1
          exact Or.inr (by simp [h1])
    · exact Or.inr (List.mem_cons_of_mem _ hqs)

/-- C10: analyze_tag is total over arbitrary tag-dimension names: when the
tag key is absent from every question row, every produced entry sits under
the single default key used for missing tags, and the totals still sum to
the bank size. -/
theorem analyze_tag_unknown_tag (qs : List Row)
    (answers : List (String × AnswerRecord)) (tag : String)
    (habs : ∀ q ∈ qs, rowGet q tag = none) :
    (∀ p ∈ analyze_tag qs answers tag, p.1 = "N/A")
    ∧ ((analyze_tag qs answers tag).map (fun p => p.2.total)).sum = qs.length := by
  refine ⟨?_, sum_total_analyze_tag qs answers tag⟩
  intro p hp
  have hk : p.1 ∈ (analyzeAcc qs answers tag).map (fun x => x.1) := by
    rw [analyze_tag] at hp
    obtain ⟨x, hx, heq⟩ := List.mem_map.mp hp
    exact List.mem_map.mpr ⟨x, hx, by rw [← heq]⟩
  rcases keys_foldl_mem answers tag qs [] p.1 (by simpa [analyzeAcc] using hk) with
    h0 | hmem
  · simp at h0
  · obtain ⟨q, hq, hval⟩ := List.mem_map.mp hmem
    rw [← hval, tagValue, habs q hq]
    rfl

theorem analyze_tag_unknown_tag_witness :
    (analyze_tag [exRow1] [] "Nonexistent").map (fun p => p.1) = ["N/A"]
    ∧ ((analyze_tag [exRow1] [] "Nonexistent").map (fun p => p.2.total)).sum = 1 := by
  have h := analyze_tag_unknown_tag [exRow1] [] "Nonexistent" (by decide)
  exact ⟨rfl, h.2⟩

lemma countP_split {α : Type} (l : List α) (p : α → Bool) :
    l.countP p + l.countP (fun a => ! p a) = l.length := by
  induction l with
  | nil => rfl
  | cons a l ih => cases h : p a <;> simp [List.countP_cons, h] <;> omega

/-- C6: when every required column is present in the trimmed header, the
loader succeeds: the records are exactly the rows passing the per-row
validation, in input order, and the skipped count equals the number of
dropped rows; a row defect — an empty stripped option or a correct-answer
value outside A-D — is never a hard failure. -/
theorem loader_skips_invalid_rows (f : Frame)
    (hcols : ∀ c ∈ requiredColumns, (f.cols.map strip).contains c = true) :
    load_valid_questions f =
      .ok ((frameRows f).filter validRow,
           (frameRows f).countP (fun r => ! validRow r))
    ∧ ∀ r : Row, validRow r =
        ([strip (rowGetD r "Option A" ""), strip (rowGetD r "Option B" ""),
          strip (rowGetD r "Option C" ""), strip (rowGetD r "Option D" "")].all
            (fun o => o != "")
         && (["A", "B", "C", "D"].contains (upper (strip (rowGetD r "Correct Answer" ""))))) := by
  have hmiss : requiredColumns.filter (fun c => ! (f.cols.map strip).contains c) = [] :=
    List.filter_eq_nil_iff.mpr (fun c hc => by rw [hcols c hc]; decide)
  constructor
  · rw [load_valid_questions]
    simp only [hmiss, List.isEmpty_nil, if_true]
    have h1 := countP_split (frameRows f) validRow
    have h2 := List.countP_eq_length_filter (p := validRow) (frameRows f)
    have h3 : (frameRows f).length - ((frameRows f).filter validRow).length =
        (frameRows f).countP (fun r => ! validRow r) := by omega
    rw [h3]
  · intro r
    simp [validRow]

theorem loader_skips_invalid_rows_witness :
    load_valid_questions invalidRowFrame =
      .ok ((frameRows invalidRowFrame).filter validRow,
           (frameRows invalidRowFrame).countP (fun r => ! validRow r))
    ∧ (frameRows invalidRowFrame).countP (fun r => ! validRow r) = 1
    ∧ ((frameRows invalidRowFrame).filter validRow).length = 1 := by
  have h := loader_skips_invalid_rows invalidRowFrame (by decide)
  exact ⟨h.1, by decide, by decide⟩

/-- C7: column headers are stripped before the schema check; when some
required column is absent from the stripped header the loader fails with
the list of exactly the missing required column names (non-empty) and the
session receives an empty bank — no row is processed. -/
theorem loader_schema_error_lists_missing (f : Frame)
    (h : ∃ c ∈ requiredColumns, ¬ (f.cols.map strip).contains c = true) :
    load_valid_questions f =
      .error (requiredColumns.filter (fun c => ! (f.cols.map strip).contains c))
    ∧ requiredColumns.filter (fun c => ! (f.cols.map strip).contains c) ≠ []
    ∧ loadedBank f = [] := by
  obtain ⟨c, hc, hnc⟩ := h
  have hfalse : (f.cols.map strip).contains c = false := by
    cases hb : (f.cols.map strip).contains c
    · rfl
    · exact absurd hb hnc
  have hmem : c ∈ requiredColumns.filter (fun c => ! (f.cols.map strip).contains c) :=
    List.mem_filter.mpr ⟨hc, by rw [hfalse]; decide⟩
  have hne : requiredColumns.filter (fun c => ! (f.cols.map strip).contains c) ≠ [] :=
    fun h0 => by rw [h0] at hmem; cases hmem
  have herr : load_valid_questions f =
      .error (requiredColumns.filter (fun c => ! (f.cols.map strip).contains c)) := by
    rw [load_valid_questions]
    rw [if_neg (fun hE => hne (List.isEmpty_iff.mp hE))]
  exact ⟨herr, hne, by simp [loadedBank, herr]⟩

theorem loader_schema_error_lists_missing_witness :
    load_valid_questions missingColFrame = .error ["Correct Answer", "Subject"]
    ∧ loadedBank missingColFrame = [] := by
  have h := loader_schema_error_lists_missing missingColFrame
    ⟨"Correct Answer", by decide, by decide⟩
  have hlist : requiredColumns.filter
      (fun c => ! (missingColFrame.cols.map strip).contains c) =
      ["Correct Answer", "Subject"] := by decide
  exact ⟨by rw [h.1, hlist], h.2.2⟩

lemma listIndex_eq_none_iff (x : String) (l : List String) :
    listIndex x l = none ↔ x ∉ l := by
  induction l with
  | nil => simp [listIndex]
  | cons o rest ih =>
    by_cases h : o = x
    · subst h
      simp [listIndex]
    · have hb : (o == x) = false := beq_eq_false_iff_ne.mpr h
      simp [listIndex, hb, Option.map_eq_none', ih, Ne.symm h]

lemma dictGetAns_dictSet_self (m : List (String × AnswerRecord)) (k : String)
    (v : AnswerRecord) : dictGetAns (dictSet m k v) k = some v := by
  induction m with
  | nil => simp [dictSet, dictGetAns, List.find?]
  | cons hd tl ih =>
    obtain ⟨k2, v2⟩ := hd
    by_cases h : k2 = k
    · subst h
      simp [dictSet, dictGetAns, List.find?]
    · have hb : (k2 == k) = false := beq_eq_false_iff_ne.mpr h
      simp only [dictSet, hb, Bool.false_eq_true, if_false]
      simp only [dictGetAns, List.find?, hb] at ih ⊢
      exact ih

/-- C3: resolving the raw selection against the four stripped options of
the current question: a selection that strips to one of them advances the
index by exactly one and records an answer under the question's id; any
other selection leaves the whole state unchanged — nothing recorded, index
unchanged — so a retried submission behaves identically. -/
theorem display_question_selection_cases (q : Row) (answer : String) (now : ℚ)
    (s : SessionState) (hkeys : ∀ k ∈ displayKeys, (rowGet q k).isSome) :
    (strip answer ∈ trimmedOptions q →
      (display_question q answer now s).current_question = s.current_question + 1
      ∧ ∃ rec : AnswerRecord,
          (display_question q answer now s).user_answers =
            dictSet s.user_answers (qidOf q) rec)
    ∧ (strip answer ∉ trimmedOptions q →
      display_question q answer now s = s
      ∧ display_question q answer now (display_question q answer now s) =
          display_question q answer now s) := by
  obtain ⟨qt, hqt⟩ := Option.isSome_iff_exists.mp (hkeys "Question Text" (by decide))
  obtain ⟨a, hao⟩ := Option.isSome_iff_exists.mp (hkeys "Option A" (by decide))
  obtain ⟨b, hbo⟩ := Option.isSome_iff_exists.mp (hkeys "Option B" (by decide))
  obtain ⟨c, hco⟩ := Option.isSome_iff_exists.mp (hkeys "Option C" (by decide))
  obtain ⟨d, hdo⟩ := Option.isSome_iff_exists.mp (hkeys "Option D" (by decide))
  obtain ⟨ca, hcao⟩ := Option.isSome_iff_exists.mp (hkeys "Correct Answer" (by decide))
  obtain ⟨qid, hqido⟩ := Option.isSome_iff_exists.mp (hkeys "Question ID" (by decide))
  have hopts : trimmedOptions q = [strip a, strip b, strip c, strip d] := by
    simp [trimmedOptions, rowGetD, hao, hbo, hco, hdo]
  have hqid_eq : qidOf q = qid := by simp [qidOf, rowGetD, hqido]
  constructor
  · intro hmem
    rw [hopts] at hmem
    have hidx : ∃ i, listIndex (strip answer) [strip a, strip b, strip c, strip d] =
        some i := by
      cases hI : listIndex (strip answer) [strip a, strip b, strip c, strip d] with
      | none => exact absurd hmem ((listIndex_eq_none_iff _ _).mp hI)
      | some i => exact ⟨i, rfl⟩
    obtain ⟨i, hI⟩ := hidx
    constructor
    · simp [display_question, hqt, hao, hbo, hco, hdo, hI, hcao, hqido]
    · refine ⟨{ selected := (Char.ofNat (65 + i)).toString
                correct := upper (strip ca)
                time_taken := now - s.start_time.getD 0 }, ?_⟩
      rw [hqid_eq]
      simp [display_question, hqt, hao, hbo, hco, hdo, hI, hcao, hqido]
  · intro hnot
    rw [hopts] at hnot
    have hI : listIndex (strip answer) [strip a, strip b, strip c, strip d] = none :=
      (listIndex_eq_none_iff _ _).mpr hnot
    have heq : display_question q answer now s = s := by
      simp [display_question, hqt, hao, hbo, hco, hdo, hI]
    exact ⟨heq, by rw [heq]; exact heq⟩

theorem display_question_selection_cases_witness :
    ((display_question exRow1 "London" 3 exState2).current_question =
      exState2.current_question + 1
    ∧ ∃ rec : AnswerRecord,
        (display_question exRow1 "London" 3 exState2).user_answers =
          dictSet exState2.user_answers (qidOf exRow1) rec)
    ∧ (display_question exRow1 "nonsense" 3 exState2 = exState2
    ∧ display_question exRow1 "nonsense" 3
        (display_question exRow1 "nonsense" 3 exState2) =
        display_question exRow1 "nonsense" 3 exState2) := by
  constructor
  · exact (display_question_selection_cases exRow1 "London" 3 exState2
      (by decide)).1 (by decide)
  · exact (display_question_selection_cases exRow1 "nonsense" 3 exState2
      (by decide)).2 (by decide)

/-- C8 (amended): on a successful submission the stored time-taken equals
the raw difference now − start-timestamp, with no clamping, and the
timestamp is then reset to now; the stored value is non-negative exactly
when the clock did not move backwards since the last transition. -/
theorem submission_time_unclamped (q : Row) (answer : String) (now t0 : ℚ)
    (s : SessionState) (hkeys : ∀ k ∈ displayKeys, (rowGet q k).isSome)
    (hst : s.start_time = some t0) (hmem : strip answer ∈ trimmedOptions q) :
    ∃ rec : AnswerRecord,
      dictGetAns (display_question q answer now s).user_answers (qidOf q) = some rec
      ∧ rec.time_taken = now - t0
      ∧ (display_question q answer now s).start_time = some now
      ∧ (0 ≤ rec.time_taken ↔ t0 ≤ now) := by
  obtain ⟨qt, hqt⟩ := Option.isSome_iff_exists.mp (hkeys "Question Text" (by decide))
  obtain ⟨a, hao⟩ := Option.isSome_iff_exists.mp (hkeys "Option A" (by decide))
  obtain ⟨b, hbo⟩ := Option.isSome_iff_exists.mp (hkeys "Option B" (by decide))
  obtain ⟨c, hco⟩ := Option.isSome_iff_exists.mp (hkeys "Option C" (by decide))
  obtain ⟨d, hdo⟩ := Option.isSome_iff_exists.mp (hkeys "Option D" (by decide))
  obtain ⟨ca, hcao⟩ := Option.isSome_iff_exists.mp (hkeys "Correct Answer" (by decide))
  obtain ⟨qid, hqido⟩ := Option.isSome_iff_exists.mp (hkeys "Question ID" (by decide))
  have hopts : trimmedOptions q = [strip a, strip b, strip c, strip d] := by
    simp [trimmedOptions, rowGetD, hao, hbo, hco, hdo]
  have hqid_eq : qidOf q = qid := by simp [qidOf, rowGetD, hqido]
  rw [hopts] at hmem
  have hidx : ∃ i, listIndex (strip answer) [strip a, strip b, strip c, strip d] =
      some i := by
    cases hI : listIndex (strip answer) [strip a, strip b, strip c, strip d] with
    | none => exact absurd hmem ((listIndex_eq_none_iff _ _).mp hI)
    | some i => exact ⟨i, rfl⟩
  obtain ⟨i, hI⟩ := hidx
  refine ⟨{ selected := (Char.ofNat (65 + i)).toString
            correct := upper (strip ca)
            time_taken := now - s.start_time.getD 0 }, ?_, ?_, ?_, ?_⟩
  · rw [hqid_eq]
    simp only [display_question, hqt, hao, hbo, hco, hdo, hI, hcao, hqido]
    exact dictGetAns_dictSet_self _ _ _
  · simp [hst]
  · simp [display_question, hqt, hao, hbo, hco, hdo, hI, hcao, hqido]
  · simp [hst, sub_nonneg]

theorem submission_time_unclamped_witness :
    ∃ rec : AnswerRecord,
      dictGetAns (display_question exRow1 "London" 3 exState2).user_answers
        (qidOf exRow1) = some rec
      ∧ rec.time_taken = 3 - 0
      ∧ (display_question exRow1 "London" 3 exState2).start_time = some 3
      ∧ (0 ≤ rec.time_taken ↔ (0 : ℚ) ≤ 3) :=
  submission_time_unclamped exRow1 "London" 3 0 exState2 (by decide) rfl (by decide)

/-- C8 counterexample: submitting at clock reading 3 in a session whose
last transition was recorded at clock 5 stores time_taken = 3 − 5, a
negative value, rather than the claimed clamped non-negative elapsed
time: the source performs no clamping. -/
theorem submission_time_negative_counterexample :
    (dictGetAns (display_question exRow1 "London" 3 skewState).user_answers
      "Q1").map (fun r => r.time_taken) = some (3 - 5)
    ∧ ¬ (0 : ℚ) ≤ 3 - 5
    ∧ (dictGetAns (display_question exRow1 "London" 3 skewState).user_answers
      "Q1").map (fun r => r.time_taken) ≠ some 0 := by
  refine ⟨rfl, by norm_num, ?_⟩
  intro h
  rw [show (dictGetAns (display_question exRow1 "London" 3 skewState).user_answers
      "Q1").map (fun r => r.time_taken) = some (3 - 5) from rfl] at h
  have h2 := Option.some.inj h
  norm_num at h2

/-- C5 counterexample: retake does not leave the question bank unchanged.
From a completed session holding the one-question example bank, the bank
after retake does not contain the same question identifiers in the same
order as before: the whole session state is cleared, questions included. -/
theorem retake_bank_cleared_counterexample :
    (retakeTest doneState).questions.map qidOf ≠ doneState.questions.map qidOf
    ∧ doneState.questions.map qidOf = ["Q1"]
    ∧ (retakeTest doneState).questions.map qidOf = [] := by
  refine ⟨?_, by decide, rfl⟩
  intro h
  rw [show (retakeTest doneState).questions.map qidOf = [] from rfl] at h
  have : doneState.questions.map qidOf = ["Q1"] := by decide
  rw [this] at h
  cases h

/-- C5 (amended): retake, applied in the Completed state, resets the answer
map to empty and the index to 0, but does not preserve the question bank:
the whole session returns to its initial defaults, the bank becoming empty
and authentication cleared (the source clears every session key and
re-runs init_session). -/
theorem retake_resets_session (s : SessionState)
    (_hdone : s.questions.length ≤ s.current_question) :
    (retakeTest s).user_answers = [] ∧ (retakeTest s).current_question = 0
    ∧ (retakeTest s).questions = [] ∧ (retakeTest s).authenticated = false
    ∧ retakeTest s = init_session :=
  ⟨rfl, rfl, rfl, rfl, rfl⟩

theorem retake_resets_session_witness :
    (retakeTest doneState).user_answers = []
    ∧ (retakeTest doneState).current_question = 0
    ∧ (retakeTest doneState).questions = []
    ∧ (retakeTest doneState).authenticated = false
    ∧ retakeTest doneState = init_session :=
  retake_resets_session doneState (by decide)

lemma zip_find_isSome (l1 : List String) :
    ∀ (l2 : List String) (k : String), k ∈ l1 → l1.length = l2.length →
      ((List.zip l1 l2).find? (fun p => p.1 == k)).isSome := by
  induction l1 with
  | nil => intro l2 k hk; cases hk
  | cons a t1 ih =>
    intro l2 k hk hlen
    cases l2 with
    | nil => simp at hlen
    | cons b t2 =>
      rw [List.zip_cons_cons]
      by_cases h : a = k
      · subst h
        simp [List.find?]
      · have hb : (a == k) = false := beq_eq_false_iff_ne.mpr h
        simp only [List.find?, hb]
        have hk2 : k ∈ t1 := by
          rcases List.mem_cons.mp hk with h1 | h1
          · exact absurd h1.symm h
          · exact h1
        exact ih t2 k hk2 (by simpa using hlen)

/-- Every record the loader keeps carries every required column key: the
schema check guarantees the key in the trimmed header and pandas keeps each
row aligned with the header. -/
lemma loadedBank_keys (f : Frame) :
    ∀ q ∈ loadedBank f, ∀ k ∈ requiredColumns, (rowGet q k).isSome := by
  intro q hq k hk
  unfold loadedBank at hq
  by_cases hm : (requiredColumns.filter
      (fun c => ! (f.cols.map strip).contains c)).isEmpty = true
  · have hload : load_valid_questions f =
        .ok ((frameRows f).filter validRow,
             (frameRows f).length - ((frameRows f).filter validRow).length) := by
      rw [load_valid_questions, if_pos hm]
    rw [hload] at hq
    have hqrows : q ∈ frameRows f := List.mem_of_mem_filter hq
    obtain ⟨cs, hcs, rfl⟩ := List.mem_map.mp hqrows
    have hcont : (f.cols.map strip).contains k = true := by
      cases hcb : (f.cols.map strip).contains k with
      | true => rfl
      | false =>
        exfalso
        have hmemf : k ∈ requiredColumns.filter
            (fun c => ! (f.cols.map strip).contains c) :=
          List.mem_filter.mpr ⟨hk, by rw [hcb]; decide⟩
        rw [List.isEmpty_iff] at hm
        rw [hm] at hmemf
        cases hmemf
    have hkmem : k ∈ f.cols.map strip := List.mem_of_elem_eq_true hcont
    have hlen : (f.cols.map strip).length = cs.length := by
      rw [List.length_map]
      exact (f.wf cs hcs).symm
    rw [rowGet]
    cases hfind : (List.zip (f.cols.map strip) cs).find? (fun p => p.1 == k) with
    | none =>
      have hz := zip_find_isSome (f.cols.map strip) cs k hkmem hlen
      rw [hfind] at hz
      simp at hz
    | some p => rfl
  · have hload : load_valid_questions f =
        .error (requiredColumns.filter (fun c => ! (f.cols.map strip).contains c)) := by
      rw [load_valid_questions, if_neg hm]
    rw [hload] at hq
    cases hq

/-- display_question never touches the bank, the auth flag or the started
flag, in any of its branches. -/
lemma display_question_frame (q : Row) (ans : String) (now : ℚ) (s : SessionState) :
    (display_question q ans now s).questions = s.questions
    ∧ (display_question q ans now s).authenticated = s.authenticated
    ∧ (display_question q ans now s).test_started = s.test_started := by
  unfold display_question
  repeat' split
  all_goals exact ⟨rfl, rfl, rfl⟩

/-- The effect of display_question on the answer map: either unchanged (a
missing key or a selection matching no option) or a dict update at the
question's id with the stripped uppercased correct letter. -/
lemma display_question_answers_cases (q : Row) (ans : String) (now : ℚ)
    (s : SessionState) :
    (display_question q ans now s).user_answers = s.user_answers
    ∨ ∃ qid ca i, rowGet q "Question ID" = some qid
        ∧ rowGet q "Correct Answer" = some ca
        ∧ (display_question q ans now s).user_answers =
            dictSet s.user_answers qid
              { selected := (Char.ofNat (65 + i)).toString
                correct := upper (strip ca)
                time_taken := now - s.start_time.getD 0 } := by
  unfold display_question
  repeat' split
  all_goals first
    | exact Or.inl rfl
    | (refine Or.inr ⟨_, _, _, ?_, ?_, rfl⟩ <;> assumption)

lemma dictSet_mem (m : List (String × AnswerRecord)) (k : String) (v : AnswerRecord) :
    ∀ p ∈ dictSet m k v, p = (k, v) ∨ p ∈ m := by
  induction m with
  | nil =>
    intro p hp
    rw [dictSet] at hp
    exact Or.inl (List.mem_singleton.mp hp)
  | cons hd tl ih =>
    obtain ⟨k2, v2⟩ := hd
    intro p hp
    by_cases h : k2 = k
    · subst h
      rw [dictSet, if_pos (beq_iff_eq.mpr rfl)] at hp
      rcases List.mem_cons.mp hp with h1 | h1
      · exact Or.inl h1
      · exact Or.inr (List.mem_cons_of_mem _ h1)
    · rw [dictSet, if_neg (by simp [h])] at hp
      rcases List.mem_cons.mp hp with h1 | h1
      · exact Or.inr (h1 ▸ List.mem_cons_self _ _)
      · rcases ih p h1 with h2 | h2
        · exact Or.inl h2
        · exact Or.inr (List.mem_cons_of_mem _ h2)

/-- Invariant: every question in a reachable session's bank carries every
required column key (they came from the loader). -/
lemma reachable_bank_keys (s : SessionState) (hr : Reachable s) :
    ∀ q ∈ s.questions, ∀ k ∈ requiredColumns, (rowGet q k).isSome := by
  induction hr with
  | init => intro q hq; cases hq
  | step hr hs ih =>
    rename_i s2 t2
    cases hs with
    | auth u f h =>
      intro q hq k hk
      exact loadedBank_keys f q hq k hk
    | startTest now h1 h2 h3 =>
      intro q hq k hk
      exact ih q hq k hk
    | answer ans now h1 h2 h3 =>
      intro q hq k hk
      rw [(display_question_frame _ ans now s2).1] at hq
      exact ih q hq k hk
    | retake h1 h2 h3 h4 =>
      intro q hq
      cases hq

/-- C4: along reachable sessions the current-question index only advances
through a successful submission: any step that increments the index also
stores (adds or overwrites) an answer record under the id of the question
sitting at the old index. -/
theorem index_advances_only_with_record (s t : SessionState) (hr : Reachable s)
    (hs : Step s t) (hinc : t.current_question = s.current_question + 1) :
    ∃ (q : Row) (rec : AnswerRecord),
      s.questions[s.current_question]? = some q
      ∧ t.user_answers = dictSet s.user_answers (qidOf q) rec := by
  cases hs with
  | auth u f h =>
    exfalso
    have h0 : s.current_question = s.current_question + 1 := hinc
    omega
  | startTest now h1 h2 h3 =>
    exfalso
    have h0 : s.current_question = s.current_question + 1 := hinc
    omega
  | retake h1 h2 h3 h4 =>
    exfalso
    have h0 : (0 : Nat) = s.current_question + 1 := hinc
    omega
  | answer ans now h1 h2 h3 =>
    set q0 := s.questions.get ⟨s.current_question, h3⟩ with hq0
    have hq_mem : q0 ∈ s.questions := List.get_mem _ _ _
    have hkeys : ∀ k ∈ displayKeys, (rowGet q0 k).isSome := by
      intro k hk2
      exact reachable_bank_keys s hr _ hq_mem k
        ((show ∀ x ∈ displayKeys, x ∈ requiredColumns by decide) k hk2)
    obtain ⟨qt, hqt⟩ :=
      Option.isSome_iff_exists.mp (hkeys "Question Text" (by decide))
    obtain ⟨a, hao⟩ := Option.isSome_iff_exists.mp (hkeys "Option A" (by decide))
    obtain ⟨b, hbo⟩ := Option.isSome_iff_exists.mp (hkeys "Option B" (by decide))
    obtain ⟨c, hco⟩ := Option.isSome_iff_exists.mp (hkeys "Option C" (by decide))
    obtain ⟨d, hdo⟩ := Option.isSome_iff_exists.mp (hkeys "Option D" (by decide))
    obtain ⟨ca, hcao⟩ :=
      Option.isSome_iff_exists.mp (hkeys "Correct Answer" (by decide))
    obtain ⟨qid, hqido⟩ :=
      Option.isSome_iff_exists.mp (hkeys "Question ID" (by decide))
    refine ⟨q0, ?_⟩
    cases hI : listIndex (strip ans) [strip a, strip b, strip c, strip d] with
    | none =>
      exfalso
      have heq : display_question q0 ans now s = s := by
        simp [display_question, hqt, hao, hbo, hco, hdo, hI]
      rw [heq] at hinc
      omega
    | some i =>
      refine ⟨{ selected := (Char.ofNat (65 + i)).toString
                correct := upper (strip ca)
                time_taken := now - s.start_time.getD 0 }, ?_, ?_⟩
      · rw [List.getElem?_eq_getElem h3]
        rfl
      · have hqid_eq : qidOf q0 = qid := by
          simp [qidOf, rowGetD, hqido]
        rw [hqid_eq]
        simp [display_question, hqt, hao, hbo, hco, hdo, hI, hcao, hqido]

theorem index_advances_only_with_record_witness :
    ∃ (q : Row) (rec : AnswerRecord),
      exState2.questions[exState2.current_question]? = some q
      ∧ exState3.user_answers = dictSet exState2.user_answers (qidOf q) rec := by
  have hr1 : Reachable exState1 :=
    Reachable.step Reachable.init (Step.auth init_session "user1" exampleFrame rfl)
  have hr2 : Reachable exState2 :=
    Reachable.step hr1 (Step.startTest exState1 0 rfl (by decide) rfl)
  have h3 : exState2.current_question < exState2.questions.length := by decide
  exact index_advances_only_with_record exState2 exState3 hr2
    (Step.answer exState2 "London" 3 rfl rfl h3) (by decide)

/-- Invariant: a logged-out reachable session has an empty answer map, and
every stored answer record's key is the id of some bank question whose
stripped uppercased correct letter is the record's stored correct letter. -/
lemma reachable_answers_inv (s : SessionState) (hr : Reachable s) :
    (s.authenticated = false → s.user_answers = [])
    ∧ ∀ p ∈ s.user_answers, ∃ q ∈ s.questions,
        qidOf q = p.1 ∧ p.2.correct = correctLetter q := by
  induction hr with
  | init => exact ⟨fun _ => rfl, fun p hp => absurd hp (List.not_mem_nil p)⟩
  | step hr hs ih =>
    rename_i s2 t2
    cases hs with
    | auth u f h =>
      constructor
      · intro hauth
        exact Bool.noConfusion hauth
      · intro p hp
        have hp2 : p ∈ s2.user_answers := hp
        rw [ih.1 h] at hp2
        cases hp2
    | startTest now h1 h2 h3 =>
      constructor
      · intro hauth
        have h4 : s2.authenticated = false := hauth
        rw [h1] at h4
        exact absurd h4 (by decide)
      · intro p hp
        exact ih.2 p hp
    | answer ans now h1 h2 h3 =>
      constructor
      · intro hauth
        have h4 := (display_question_frame
          (s2.questions.get ⟨s2.current_question, h3⟩) ans now s2).2.1
        have hfalse := h4.symm.trans hauth
        rw [h1] at hfalse
        exact absurd hfalse (by decide)
      · intro p hp
        rcases display_question_answers_cases
            (s2.questions.get ⟨s2.current_question, h3⟩) ans now s2 with
          hsame | ⟨qid, ca, i, hqid, hca, hset⟩
        · rw [hsame] at hp
          obtain ⟨q, hq, he1, he2⟩ := ih.2 p hp
          refine ⟨q, ?_, he1, he2⟩
          rw [(display_question_frame _ ans now s2).1]
          exact hq
        · rw [hset] at hp
          simp only [List.get_eq_getElem] at hqid hca
          rcases dictSet_mem s2.user_answers qid _ p hp with heq | hmem
          · subst heq
            refine ⟨s2.questions.get ⟨s2.current_question, h3⟩, ?_, ?_, ?_⟩
            · rw [(display_question_frame _ ans now s2).1]
              exact List.get_mem _ _ _
            · simp [qidOf, rowGetD, hqid]
            · simp [correctLetter, rowGetD, hca]
          · obtain ⟨q, hq, he1, he2⟩ := ih.2 p hmem
            refine ⟨q, ?_, he1, he2⟩
            rw [(display_question_frame _ ans now s2).1]
            exact hq
    | retake h1 h2 h3 h4 =>
      exact ⟨fun _ => rfl, fun p hp => absurd hp (List.not_mem_nil p)⟩

/-- C9: in a reachable session whose bank has pairwise distinct question
ids, the correct letter stored in an answer record looked up under a
question's id equals that question's stripped uppercased correct-answer
field; hence the overall-accuracy test (selected versus stored correct) and
the tag-aggregation test (selected versus the question's correct letter)
agree on every answered question. -/
theorem answer_correct_letter_consistent (s : SessionState) (hr : Reachable s)
    (hnd : (s.questions.map qidOf).Nodup) :
    ∀ q ∈ s.questions, ∀ rec : AnswerRecord,
      dictGetAns s.user_answers (qidOf q) = some rec →
      rec.correct = correctLetter q
      ∧ ((rec.selected = rec.correct) ↔ (rec.selected = correctLetter q)) := by
  intro q hq rec hget
  obtain ⟨p, hp, hpk, hpv⟩ := dictGetAns_some s.user_answers (qidOf q) rec hget
  obtain ⟨q2, hq2, he1, he2⟩ := (reachable_answers_inv s hr).2 p hp
  have hqq : q2 = q :=
    List.inj_on_of_nodup_map hnd hq2 hq (by rw [he1, hpk])
  have h1 : rec.correct = correctLetter q := by
    rw [← hpv, he2, hqq]
  exact ⟨h1, by rw [h1]⟩

theorem answer_correct_letter_consistent_witness :
    ((exState3.questions.map qidOf).Nodup)
    ∧ dictGetAns exState3.user_answers (qidOf exRow1) =
        some { selected := "B", correct := "B", time_taken := 3 - 0 }
    ∧ ({ selected := "B", correct := "B", time_taken := 3 - 0 :
          AnswerRecord }).correct = correctLetter exRow1
    ∧ ((({ selected := "B", correct := "B", time_taken := 3 - 0 :
          AnswerRecord }).selected =
        ({ selected := "B", correct := "B", time_taken := 3 - 0 :
          AnswerRecord }).correct)
      ↔ (({ selected := "B", correct := "B", time_taken := 3 - 0 :
          AnswerRecord }).selected = correctLetter exRow1)) := by
  have hr1 : Reachable exState1 :=
    Reachable.step Reachable.init (Step.auth init_session "user1" exampleFrame rfl)
  have hr2 : Reachable exState2 :=
    Reachable.step hr1 (Step.startTest exState1 0 rfl (by decide) rfl)
  have h3 : exState2.current_question < exState2.questions.length := by decide
  have hr3 : Reachable exState3 :=
    Reachable.step hr2 (Step.answer exState2 "London" 3 rfl rfl h3)
  have hnd : (exState3.questions.map qidOf).Nodup := by decide
  have hget : dictGetAns exState3.user_answers (qidOf exRow1) =
      some { selected := "B", correct := "B", time_taken := 3 - 0 } := rfl
  have hmem : exRow1 ∈ exState3.questions := by decide
  have h := answer_correct_letter_consistent exState3 hr3 hnd exRow1 hmem
    { selected := "B", correct := "B", time_taken := 3 - 0 } hget
  exact ⟨hnd, hget, h⟩

end Imtihan
